import Mathlib

/-!
Shallow embedding of `apps/assets/task_handlers/backup/handlers.py`
(account backup handlers): the row projector (`unpack_data`,
`get_header_fields`, `create_row`), the two type collectors
(`AssetAccountHandler.create_data_map`, `AppAccountHandler.create_data_map`),
and the backup orchestrator (`create_excel`, `send_backup_mail`, `_run`,
`run`).

Conventions of the embedding:
- Python (ordered) dict values are association lists; assignment `d[k] = v`
  replaces the value in place when the key exists (keeping its position) and
  appends otherwise (`updInsert`), matching Python dict update semantics.
- A serialized record (`serializer.data`) is a list of fields whose values
  are either leaves (already stringified; `str` on them is the identity) or
  nested ordered mappings (`SVal`).
- Exceptions are `Except String`; a Python `KeyError` on `d[k]` becomes
  `.error ("KeyError: " ++ k)`.
- External collaborators (account store, user resolution, archive encryptor,
  file naming from timestamps) are parameters of an `Env` record, per the
  interface boundary of the program: the store returns the accounts with
  their post-`load_auth` serialized data, `encrypt` may fail, file names
  produced from `time.time()` are modelled as an indexed name supply.
- Filesystem effects, sent notifications and the persisted execution state
  are tracked explicitly in `Eff` / `InnerResult`.
-/

namespace AccountBackup

/-- A serialized value: a leaf (stringified scalar) or a nested ordered
mapping, as produced by the serialization framework. -/
inductive SVal where
  | leaf (s : String)
  | dict (fields : List (String × SVal))
deriving Repr

/-- Ordered-dict lookup on an association list (first matching key). -/
def alook {β : Type} (d : List (String × β)) (k : String) : Option β :=
  match d with
  | [] => none
  | (k0, v) :: rest => if k0 = k then some v else alook rest k

/-- Python dict assignment `d[k] = v` on an association list: replace the
value in place if the key is present (keeping its position), else append
the new pair. -/
def updInsert (d : List (String × String)) (k v : String) : List (String × String) :=
  if (alook d k).isSome then d.map (fun p => if p.1 = k then (p.1, v) else p)
  else d ++ [(k, v)]

/-- Python string slicing s[:n] (by code points). -/
def truncate (s : String) (n : Nat) : String := ⟨s.data.take n⟩

/-- `BaseAccountHandler.unpack_data`: recursively merges every leaf
key-value pair of a nested serialized record into the accumulator dict
(`data[k] = v` for leaves, recurse for nested mappings). -/
def unpack_data (l : List (String × SVal)) (data : List (String × String)) : List (String × String) :=
  match l with
  | [] => data
  | (k, .leaf s) :: rest => unpack_data rest (updInsert data k s)
  | (_, .dict fs) :: rest => unpack_data rest (unpack_data fs data)

/-- Spec-side definition (for the `flatten` contract): the leaves of a
nested record in depth-first order, following the record's own field
order. -/
def dfLeaves (l : List (String × SVal)) : List (String × String) :=
  match l with
  | [] => []
  | (k, .leaf s) :: rest => (k, s) :: dfLeaves rest
  | (_, .dict fs) :: rest => dfLeaves fs ++ dfLeaves rest

/-- A declared serializer field: either a plain field carrying a display
label, or a nested serializer with its own optional `Meta.fields_backup`
and declared fields. -/
inductive FieldSer where
  | plain (label : String)
  | nested (fields_backup : Option (List String)) (fields : List (String × FieldSer))
deriving Repr

/-- A serializer class at the top level: optional `Meta.fields_backup`
subset and the declared fields in order. -/
structure Schema where
  fields_backup : Option (List String)
  fields : List (String × FieldSer)
deriving Repr

/-- Size bound used for the termination of header derivation: a nested
serializer found among the declared fields is structurally smaller. -/
def lookup_nested_sizeOf (fields : List (String × FieldSer)) (n : String)
    (b : Option (List String)) (fs : List (String × FieldSer))
    (h : alook fields n = some (FieldSer.nested b fs)) : sizeOf fs < sizeOf fields := by
  induction fields with
  | nil => simp [alook] at h
  | cons p rest ih =>
    obtain ⟨k, v⟩ := p
    simp only [alook] at h
    split at h
    · cases h
      simp
      omega
    · have hr := ih h
      simp
      omega

/-- The loop body of `BaseAccountHandler.get_header_fields`: iterate the
backup field names, look each up among the serializer's declared fields
(`serializer.fields[field]`, a `KeyError` if absent); a nested serializer
contributes its recursively derived sub-headers via `dict.update`, a plain
field maps its name to its label. -/
def header_fields_of (fields : List (String × FieldSer)) (backup_fields : List String)
    (acc : List (String × String)) : Except String (List (String × String)) :=
  match backup_fields with
  | [] => .ok acc
  | n :: rest =>
    match h : alook fields n with
    | none => .error ("KeyError: " ++ n)
    | some (.plain label) => header_fields_of fields rest (updInsert acc n label)
    | some (.nested b fs) =>
      match header_fields_of fs (b.getD (fs.map Prod.fst)) [] with
      | .error e => .error e
      | .ok sub => header_fields_of fields rest (sub.foldl (fun a p => updInsert a p.1 p.2) acc)
termination_by (sizeOf fields, backup_fields.length)
decreasing_by
  · apply Prod.Lex.right
    simp
  · apply Prod.Lex.left
    exact lookup_nested_sizeOf _ _ _ _ h
  · apply Prod.Lex.right
    simp

/-- `BaseAccountHandler.get_header_fields`: the backup field subset is
`Meta.fields_backup` when declared, otherwise all declared field names;
headers start from the empty dict. -/
def get_header_fields (s : Schema) : Except String (List (String × String)) :=
  header_fields_of s.fields (s.fields_backup.getD (s.fields.map Prod.fst)) []

/-- The projection loop of `BaseAccountHandler.create_row`: for every
`(field, header_name)` in the header mapping, `row_dict[header_name] =
str(data[field])` — a missing `field` in the flattened data is a
`KeyError`. -/
def row_loop (data : List (String × String)) (hf : List (String × String))
    (row : List (String × String)) : Except String (List (String × String)) :=
  match hf with
  | [] => .ok row
  | (field, header) :: rest =>
    match alook data field with
    | none => .error ("KeyError: " ++ field)
    | some v => row_loop data rest (updInsert row header v)

/-- `BaseAccountHandler.create_row`: derive the header mapping when the
passed one is empty (`if not header_fields`), flatten the serialized
record, then project every header field. -/
def create_row (schema : Schema) (serData : List (String × SVal))
    (header_fields : List (String × String)) : Except String (List (String × String)) :=
  match (if header_fields.isEmpty then get_header_fields schema else .ok header_fields) with
  | .error e => .error e
  | .ok hf => row_loop (unpack_data serData []) hf []

/-- A data map: sheet name to its ordered list of rows (first row of a
sheet is the header row), as built in the `defaultdict(list)`. -/
abbrev DataMap := List (String × List (List String))

/-- `data_map[sheet].append(row)` on the `defaultdict(list)`: append the
row to the sheet's list, creating the sheet if absent. -/
def dm_append (dm : DataMap) (k : String) (row : List String) : DataMap :=
  if (alook dm k).isSome then
    dm.map (fun p => if p.1 = k then (p.1, p.2 ++ [row]) else p)
  else dm ++ [(k, [row])]

/-- An asset account, carrying its serialized data (`AccountSecretSerializer`
output after `load_auth`). -/
structure AssetAcct where
  data : List (String × SVal)
deriving Repr

/-- An application account: its application sub-type tag plus its
serialized data (`AppAccountSecretSerializer` output after `load_auth`). -/
structure AppAcct where
  type : String
  data : List (String × SVal)
deriving Repr

/-- The loop of `AssetAccountHandler.create_data_map`: one sheet named
`sheet_name`; the header row is appended on first encounter, then the value
row; every record reuses the precomputed header mapping `hf` (which
`create_row` re-derives only when empty). The `Nat` counts
`get_header_fields` derivations performed by the loop. -/
def asset_loop (schema : Schema) (sheet_name : String) (hf : List (String × String)) :
    List AssetAcct → DataMap → Nat → Except String (DataMap × Nat)
  | [], dm, cnt => .ok (dm, cnt)
  | a :: rest, dm, cnt =>
    match create_row schema a.data hf with
    | .error e => .error e
    | .ok row =>
      let dm1 := if (alook dm sheet_name).isSome then dm
                 else dm_append dm sheet_name (row.map Prod.fst)
      let dm2 := dm_append dm1 sheet_name (row.map Prod.snd)
      asset_loop schema sheet_name hf rest dm2 (cnt + (if hf.isEmpty then 1 else 0))

/-- `AssetAccountHandler.create_data_map`: short-circuits to an empty map
when there are no accounts; otherwise derives the header mapping once from
the first record (counted as one derivation) and runs the loop over all
accounts. -/
def asset_create_data_map (schema : Schema) (sheet_name : String)
    (accounts : List AssetAcct) : Except String (DataMap × Nat) :=
  match accounts with
  | [] => .ok ([], 0)
  | _ :: _ =>
    match get_header_fields schema with
    | .error e => .error e
    | .ok hf => asset_loop schema sheet_name hf accounts [] 1

/-- The loop of `AppAccountHandler.create_data_map`: the sheet name is the
sub-type's label; `create_row` is called without header fields, so each
record performs one header derivation (the `Nat` counts them); the header
row is appended only on the sheet's first encounter. -/
def app_loop (schema : Schema) (get_label : String → String) :
    List AppAcct → DataMap → Nat → Except String (DataMap × Nat)
  | [], dm, cnt => .ok (dm, cnt)
  | a :: rest, dm, cnt =>
    let sheet := get_label a.type
    match create_row schema a.data [] with
    | .error e => .error e
    | .ok row =>
      let dm1 := if (alook dm sheet).isSome then dm
                 else dm_append dm sheet (row.map Prod.fst)
      let dm2 := dm_append dm1 sheet (row.map Prod.snd)
      app_loop schema get_label rest dm2 (cnt + 1)

/-- `AppAccountHandler.create_data_map`: no emptiness short-circuit, loop
over all application accounts starting from the empty map. -/
def app_create_data_map (schema : Schema) (get_label : String → String)
    (accounts : List AppAcct) : Except String (DataMap × Nat) :=
  app_loop schema get_label accounts [] 0

/-- Spec-side: the distinct elements of a list in first-occurrence order
(the sub-types in the order their sheets are created). -/
def first_occurrences (l : List String) : List String :=
  l.foldl (fun acc x => if x ∈ acc then acc else acc ++ [x]) []

/-- A recipient as resolved from the user store (`User.objects.filter`):
its id, its personal `secret_key` (the empty string models a missing or
empty secret, which is falsy in Python), and its email. -/
structure User where
  id : Nat
  secret_key : String
  email : String
deriving Repr, DecidableEq

/-- The execution record's inputs read by the run: the requested account
categories (`execution.types`) and the recipient snapshot
(`execution.plan_snapshot.get('recipients')`, empty list for a missing or
empty snapshot). -/
structure Execution where
  types : List String
  recipients : List Nat
deriving Repr, DecidableEq

/-- The external collaborators and ambient inputs of one run, fixed for
its duration: the two serializer schemas, the account store's query
results (with post-`load_auth` serialized data), the asset sheet name
(`AuthBook._meta.verbose_name`), `AppType.get_label`, the
timestamp-derived file name supplies (indexed, since each call to
`time.time()` yields a fresh value), user resolution, the archive
encryptor (which may raise), and whether `execution.save()` raises. -/
structure Env where
  asset_schema : Schema
  app_schema : Schema
  asset_accounts : List AssetAcct
  app_accounts : List AppAcct
  asset_sheet_name : String
  app_get_label : String → String
  xlsx_name : Nat → String
  zip_name : Nat → String
  resolve_users : List Nat → List User
  encrypt : String → String → List String → Except String Unit
  save_result : Option String

/-- The externally observable effects of a run: the files currently in the
temporary directory, every spreadsheet and archive file ever created,
every file removed by `os.remove`, the published notifications (recipient
id with attachment list), and whether the recipient snapshot was resolved
against the user store. -/
structure Eff where
  disk : List String := []
  xlsx_created : List String := []
  zip_created : List String := []
  deleted : List String := []
  mails : List (Nat × List String) := []
  resolved : Bool := false
deriving Repr, DecidableEq

/-- Writing a file at a path: a second write to the same path overwrites,
so the directory listing is kept duplicate-free. -/
def add_file (disk : List String) (f : String) : List String :=
  if f ∈ disk then disk else disk ++ [f]

/-- `handler_map.get(account_type)` combined with
`handler.create_data_map()`: `None` for an unknown category, otherwise the
category's data map (with its header-derivation count). -/
def handler_data_map (env : Env) (t : String) : Option (Except String (DataMap × Nat)) :=
  if t = "asset" then
    some (asset_create_data_map env.asset_schema env.asset_sheet_name env.asset_accounts)
  else if t = "application" then
    some (app_create_data_map env.app_schema env.app_get_label env.app_accounts)
  else none

/-- The loop of `AccountBackupHandler.create_excel`: skip unknown
categories and empty data maps; otherwise write one spreadsheet file (its
timestamp-derived name drawn from the supply) and record its path. An
exception from `create_data_map` propagates with the effects so far. -/
def excel_loop (env : Env) : List String → Nat → List String → Eff → Eff × Except String (List String)
  | [], _, files, eff => (eff, .ok files)
  | t :: rest, idx, files, eff =>
    match handler_data_map env t with
    | none => excel_loop env rest idx files eff
    | some (.error e) => (eff, .error e)
    | some (.ok (dm, _)) =>
      if dm.isEmpty then excel_loop env rest idx files eff
      else
        let filename := env.xlsx_name idx
        let eff1 := { eff with disk := add_file eff.disk filename,
                               xlsx_created := eff.xlsx_created ++ [filename] }
        excel_loop env rest (idx + 1) (files ++ [filename]) eff1

/-- `AccountBackupHandler.create_excel`: iterate the execution's requested
categories, returning the list of produced spreadsheet paths. -/
def create_excel (env : Env) (types : List String) (eff : Eff) : Eff × Except String (List String) :=
  excel_loop env types 0 [] eff

/-- The recipient loop of `AccountBackupHandler.send_backup_mail`: a user
without a usable secret gets the notification with an empty attachment
list; otherwise an encrypted archive of all spreadsheet files is produced
(its name drawn from the zip name supply) and attached. An encryption
failure propagates with the effects so far. -/
def mail_loop (env : Env) (files : List String) : List User → Nat → Eff → Eff × Except String Unit
  | [], _, eff => (eff, .ok ())
  | u :: rest, idx, eff =>
    if u.secret_key = "" then
      mail_loop env files rest (idx + 1) { eff with mails := eff.mails ++ [(u.id, [])] }
    else
      let attachment := env.zip_name idx
      match env.encrypt attachment u.secret_key files with
      | .error e => (eff, .error e)
      | .ok _ =>
        let eff1 := { eff with disk := add_file eff.disk attachment,
                               zip_created := eff.zip_created ++ [attachment],
                               mails := eff.mails ++ [(u.id, [attachment])] }
        mail_loop env files rest (idx + 1) eff1

/-- The cleanup pass at the end of `send_backup_mail`:
`for file in files: os.remove(file)` (each such file was produced by this
run's `create_excel` and is present on disk at this point). -/
def delete_files (files : List String) (eff : Eff) : Eff :=
  files.foldl (fun ef f => { ef with disk := ef.disk.erase f, deleted := ef.deleted ++ [f] }) eff

/-- `AccountBackupHandler.send_backup_mail`: returns immediately when no
files were produced (before resolving recipients); otherwise resolves the
recipient snapshot, runs the recipient loop, and deletes the spreadsheet
files only after the whole loop has finished. -/
def send_backup_mail (env : Env) (files : List String) (recipients : List Nat)
    (eff : Eff) : Eff × Except String Unit :=
  if files.isEmpty then (eff, .ok ())
  else
    let users := env.resolve_users recipients
    let eff1 := { eff with resolved := true }
    match mail_loop env files users 0 eff1 with
    | (eff2, .error e) => (eff2, .error e)
    | (eff2, .ok _) => (delete_files files eff2, .ok ())

/-- The final state of one `_run`: effects, the handler's `is_frozen`
flag, the execution record's in-memory `reason` and `is_success` as set by
`step_perform_task_update`, whether that finalize step was reached, and
the exception (if any) escaping `_run` (only `execution.save()` can raise
there, inside the `finally` block). -/
structure InnerResult where
  eff : Eff
  is_frozen : Bool
  exec_reason : String
  exec_success : Bool
  save_attempted : Bool
  raised : Option String
deriving Repr, DecidableEq

/-- The protected body of `AccountBackupHandler._run`: skip collection and
delivery entirely when the recipient snapshot is empty; otherwise collect
the spreadsheet files and deliver them. -/
def run_body (env : Env) (ex : Execution) : Eff × Except String Unit :=
  if ex.recipients.isEmpty then ({}, .ok ())
  else
    match create_excel env ex.types {} with
    | (eff, .error e) => (eff, .error e)
    | (eff, .ok files) => send_backup_mail env files ex.recipients eff

/-- `AccountBackupHandler._run`: `is_success = False` and `error = '-'`
initially; an exception from the body sets `is_frozen` and captures the
message, the `else` branch sets success; the `finally` block always runs
`step_perform_task_update(is_success, reason)`, which writes
`reason[:1024]` and `is_success` to the execution record and calls
`save()` (whose failure escapes `_run`). -/
def run_inner (env : Env) (ex : Execution) : InnerResult :=
  match run_body env ex with
  | (eff, .ok _) =>
    { eff := eff, is_frozen := false, exec_reason := truncate "-" 1024,
      exec_success := true, save_attempted := true, raised := env.save_result }
  | (eff, .error e) =>
    { eff := eff, is_frozen := true, exec_reason := truncate e 1024,
      exec_success := false, save_attempted := true, raised := env.save_result }

/-- The outcome of the outer entry point: the inner result with no
exception left pending, plus the exception (if any) that the outer
`except` block caught and logged. -/
structure RunOutcome where
  result : InnerResult
  outer_logged : Option String
deriving Repr, DecidableEq

/-- `AccountBackupHandler.run`: wraps `_run` in a second containment
boundary; an exception escaping `_run` is logged and swallowed, and `run`
returns normally. -/
def run (env : Env) (ex : Execution) : RunOutcome :=
  match (run_inner env ex).raised with
  | some e => { result := { run_inner env ex with raised := none }, outer_logged := some e }
  | none => { result := run_inner env ex, outer_logged := none }

/-! Concrete fixtures used to exercise the embedding on closed inputs. -/

/-- A minimal environment: no accounts, trivial collaborators, constant
file-name supplies, a save that succeeds. -/
def env_triv : Env where
  asset_schema := ⟨none, []⟩
  app_schema := ⟨none, []⟩
  asset_accounts := []
  app_accounts := []
  asset_sheet_name := "Asset"
  app_get_label := fun s => s
  xlsx_name := fun _ => "sheet.xlsx"
  zip_name := fun _ => "bundle.zip"
  resolve_users := fun _ => []
  encrypt := fun _ _ _ => .ok ()
  save_result := none

/-- An environment whose asset serializer declares a backup field that is
not among its declared fields, so header derivation raises a KeyError
during collection. -/
def env_w1 : Env := { env_triv with
  asset_schema := ⟨some ["missing"], [("name", FieldSer.plain "Name")]⟩,
  asset_accounts := [⟨[("name", SVal.leaf "x")]⟩] }

/-- An execution requesting the asset category with one recipient. -/
def ex_w1 : Execution := ⟨["asset"], [1]⟩

/-- An execution whose recipient snapshot is empty. -/
def ex_w4 : Execution := ⟨["asset"], []⟩

/-- An environment whose `execution.save()` raises. -/
def env_w9 : Env := { env_triv with save_result := some "database write failed" }

/-- An execution with a recipient but (under `env_triv`, which has no
accounts) no produced files. -/
def ex_w10 : Execution := ⟨["asset"], [7]⟩

/-- A happy-path environment: one asset account, one recipient with a
usable secret, a succeeding encryptor. -/
def env_c2 : Env := { env_triv with
  asset_schema := ⟨some ["name"], [("name", FieldSer.plain "Name")]⟩,
  asset_accounts := [⟨[("name", SVal.leaf "a1")]⟩],
  resolve_users := fun _ => [⟨1, "sek", "user1"⟩] }

/-- The execution driven through `env_c2`. -/
def ex_c2 : Execution := ⟨["asset"], [1]⟩

/-- The effects of the happy-path run of `env_c2` / `ex_c2`: one
spreadsheet written and later deleted, one archive written and never
deleted, one mail with the archive attached. -/
def eff_c2 : Eff :=
  { disk := ["bundle.zip"], xlsx_created := ["sheet.xlsx"],
    zip_created := ["bundle.zip"], deleted := ["sheet.xlsx"],
    mails := [(1, ["bundle.zip"])], resolved := true }

/-- A one-field application serializer schema. -/
def app_schema_w : Schema := ⟨some ["name"], [("name", FieldSer.plain "Name")]⟩

/-- An application account of sub-type mysql. -/
def app_acct_w1 : AppAcct := ⟨"mysql", [("name", SVal.leaf "a")]⟩

/-- A second application account of sub-type mysql. -/
def app_acct_w2 : AppAcct := ⟨"mysql", [("name", SVal.leaf "b")]⟩

/-- An application account of sub-type redis. -/
def app_acct_w3 : AppAcct := ⟨"redis", [("name", SVal.leaf "c")]⟩

/-- A one-field asset serializer schema. -/
def asset_schema_w : Schema := ⟨some ["name"], [("name", FieldSer.plain "Name")]⟩

/-- An asset account for `asset_schema_w`. -/
def asset_acct_w : AssetAcct := ⟨[("name", SVal.leaf "v")]⟩

/-! Generic association-list lemmas shared by the proofs below. -/

theorem alook_append_single {β : Type} (d : List (String × β)) (a : String) (v : β)
    (k : String) :
    alook (d ++ [(a, v)]) k =
      match alook d k with
      | some w => some w
      | none => if k = a then some v else none := by
  induction d with
  | nil =>
    by_cases hk : a = k
    · subst hk
      simp [alook]
    · have hka : ¬ k = a := fun hc => hk hc.symm
      simp [alook, hk, hka]
  | cons p rest ih =>
    obtain ⟨k0, v0⟩ := p
    by_cases hk : k0 = k
    · simp [alook, hk]
    · simp [alook, hk, ih]

theorem alook_map_update {β : Type} (d : List (String × β)) (a : String) (g : β → β)
    (k : String) :
    alook (d.map fun p => if p.1 = a then (p.1, g p.2) else p) k =
      if k = a then (alook d k).map g else alook d k := by
  induction d with
  | nil => simp [alook]
  | cons p rest ih =>
    obtain ⟨k0, v0⟩ := p
    simp only [List.map_cons]
    by_cases ha : (k0, v0).1 = a
    · rw [if_pos ha]
      simp only at ha
      subst ha
      by_cases hk : k0 = k
      · subst hk
        simp [alook]
      · have hka : ¬ k = k0 := fun hc => hk hc.symm
        simp [alook, hk, hka, ih]
    · rw [if_neg ha]
      simp only at ha
      by_cases hk : k0 = k
      · subst hk
        have hka : ¬ k0 = a := ha
        simp [alook, hka]
      · simp [alook, ha, hk, ih]

/-- Specialization of map-update to plain value replacement (the shape
used by updInsert). -/
theorem alook_map_replace (d : List (String × String)) (a v k : String) :
    alook (d.map fun p => if p.1 = a then (p.1, v) else p) k =
      if k = a then (alook d k).map (fun _ => v) else alook d k :=
  alook_map_update d a (fun _ => v) k

/-- Specialization of map-update to row appending (the shape used by
dm_append). -/
theorem alook_map_append_row (dm : DataMap) (a : String) (row : List String) (k : String) :
    alook (dm.map fun p => if p.1 = a then (p.1, p.2 ++ [row]) else p) k =
      if k = a then (alook dm k).map (fun r => r ++ [row]) else alook dm k :=
  alook_map_update dm a (fun r => r ++ [row]) k

theorem alook_isSome_iff_mem_keys {β : Type} (d : List (String × β)) (k : String) :
    (alook d k).isSome ↔ k ∈ d.map Prod.fst := by
  induction d with
  | nil => simp [alook]
  | cons p rest ih =>
    obtain ⟨k0, v0⟩ := p
    by_cases hk : k0 = k
    · simp [alook, hk]
    · have hka : ¬ k = k0 := fun hc => hk hc.symm
      simp [alook, hk, ih, hka]

theorem alook_updInsert (d : List (String × String)) (a v k : String) :
    alook (updInsert d a v) k = if k = a then some v else alook d k := by
  unfold updInsert
  by_cases hin : (alook d a).isSome
  · rw [if_pos hin, alook_map_replace]
    by_cases hk : k = a
    · subst hk
      cases hl : alook d k with
      | none => rw [hl] at hin; simp at hin
      | some w => simp [hl]
    · simp [hk]
  · rw [if_neg hin, alook_append_single]
    by_cases hk : k = a
    · subst hk
      cases hl : alook d k with
      | none => simp
      | some w => rw [hl] at hin; simp at hin
    · cases hl : alook d k with
      | none => simp [hk]
      | some w => simp [hk]

/-! The flatten contract: depth-first leaves, last value wins. -/

theorem unpack_data_eq_foldl (l : List (String × SVal)) (data : List (String × String)) :
    unpack_data l data = (dfLeaves l).foldl (fun d p => updInsert d p.1 p.2) data := by
  induction l, data using unpack_data.induct with
  | case1 data => simp [unpack_data, dfLeaves]
  | case2 k s rest data ih => simp [unpack_data, dfLeaves, ih]
  | case3 k fs rest data ih1 ih2 =>
    simp only [unpack_data, dfLeaves, List.foldl_append]
    rw [ih2, ih1]

theorem alook_foldl_updInsert (l : List (String × String)) (d : List (String × String))
    (k : String) :
    alook (l.foldl (fun d p => updInsert d p.1 p.2) d) k =
      match alook (l.reverse) k with
      | some v => some v
      | none => alook d k := by
  induction l generalizing d with
  | nil => simp [alook]
  | cons p l ih =>
    obtain ⟨a, v⟩ := p
    simp only [List.foldl_cons, List.reverse_cons]
    rw [ih]
    rw [alook_append_single]
    cases hl : alook (l.reverse) k with
    | some w => simp
    | none =>
      rw [alook_updInsert]
      by_cases hk : k = a
      · simp [hk]
      · simp [hk]

/-- Claim C3: for every nested serialized record, unpack_data returns a
flat mapping that contains every leaf field (a key is present in the
result exactly when it is the key of some depth-first leaf), and the value
stored at a key is the value of the last leaf with that key in depth-first
record order — so a later value (in particular one from a child object)
overwrites an earlier same-named one. -/
theorem C3_unpack_data_flattens (l : List (String × SVal)) (k : String) :
    alook (unpack_data l []) k = alook ((dfLeaves l).reverse) k ∧
    ((alook (unpack_data l []) k).isSome ↔ k ∈ (dfLeaves l).map Prod.fst) := by
  have h1 : alook (unpack_data l []) k = alook ((dfLeaves l).reverse) k := by
    rw [unpack_data_eq_foldl, alook_foldl_updInsert]
    cases hh : alook ((dfLeaves l).reverse) k with
    | some w => simp
    | none => simp [alook]
  refine ⟨h1, ?_⟩
  rw [h1, alook_isSome_iff_mem_keys]
  rw [List.map_reverse, List.mem_reverse]

theorem row_loop_missing (data : List (String × String)) :
    ∀ (hf : List (String × String)) (row : List (String × String)) (f h : String),
    (f, h) ∈ hf → alook data f = none → ∃ e, row_loop data hf row = Except.error e := by
  intro hf
  induction hf with
  | nil => simp
  | cons p rest ih =>
    intro row f h hm hnone
    obtain ⟨f0, h0⟩ := p
    rcases List.mem_cons.mp hm with heq | hmem
    · injection heq with h1 h2
      subst h1
      exact ⟨"KeyError: " ++ f, by simp [row_loop, hnone]⟩
    · cases hl : alook data f0 with
      | none => exact ⟨"KeyError: " ++ f0, by simp [row_loop, hl]⟩
      | some v =>
        obtain ⟨e, he⟩ := ih (updInsert row h0 v) f h hmem hnone
        exact ⟨e, by simp [row_loop, hl, he]⟩

/-- Claim C5: if a field declared in a (non-empty) header mapping is
absent from the flattened serialized data, create_row fails with an error
result that propagates out of the projector rather than being
swallowed. -/
theorem C5_create_row_missing_field (schema : Schema) (serData : List (String × SVal))
    (hf : List (String × String)) (f h : String)
    (hne : hf ≠ []) (hmem : (f, h) ∈ hf)
    (hmiss : alook (unpack_data serData []) f = none) :
    ∃ e, create_row schema serData hf = Except.error e := by
  have hemp : hf.isEmpty = false := by
    cases hf with
    | nil => exact absurd rfl hne
    | cons a l => rfl
  obtain ⟨e, he⟩ := row_loop_missing (unpack_data serData []) hf [] f h hmem hmiss
  exact ⟨e, by simp [create_row, hemp, he]⟩

/-- Witness for C5 at a concrete input: the header mapping declares field
x, the record is empty, and create_row errors. -/
theorem C5_witness :
    (([("x", "X")] : List (String × String)) ≠ [] ∧
     ("x", "X") ∈ ([("x", "X")] : List (String × String)) ∧
     alook (unpack_data [] []) "x" = none) ∧
    ∃ e, create_row ⟨none, []⟩ [] [("x", "X")] = Except.error e :=
  ⟨⟨by simp, by simp, by simp [unpack_data, alook]⟩,
   C5_create_row_missing_field ⟨none, []⟩ [] [("x", "X")] "x" "X" (by simp) (by simp)
     (by simp [unpack_data, alook])⟩

/-! The orchestrator's failure containment and short-circuits. -/

/-- Claim C1: if any exception is raised inside the inner run boundary
(the protected body covering collection and delivery), the remaining steps
are aborted, the handler's frozen flag is set, the execution record's
success flag becomes false, its reason becomes the exception message
truncated to at most 1024 characters, and the finalize step (writing flag
and reason and calling save) still executes. -/
theorem C1_inner_failure_finalizes (env : Env) (ex : Execution) (e : String) (eff : Eff)
    (hbody : run_body env ex = (eff, Except.error e)) :
    (run_inner env ex).is_frozen = true ∧
    (run_inner env ex).exec_success = false ∧
    (run_inner env ex).exec_reason = truncate e 1024 ∧
    (run_inner env ex).save_attempted = true := by
  simp [run_inner, hbody]

/-- Witness for C1: a backup field missing from the declared serializer
fields makes header derivation raise during collection. -/
theorem C1_witness :
    run_body env_w1 ex_w1 = ({}, Except.error ("KeyError: " ++ "missing")) ∧
    ((run_inner env_w1 ex_w1).is_frozen = true ∧
     (run_inner env_w1 ex_w1).exec_success = false ∧
     (run_inner env_w1 ex_w1).exec_reason = truncate ("KeyError: " ++ "missing") 1024 ∧
     (run_inner env_w1 ex_w1).save_attempted = true) :=
  ⟨by simp [env_w1, env_triv, ex_w1, run_body, create_excel, excel_loop, handler_data_map,
            asset_create_data_map, get_header_fields, header_fields_of, alook],
   C1_inner_failure_finalizes env_w1 ex_w1 ("KeyError: " ++ "missing") {}
     (by simp [env_w1, env_triv, ex_w1, run_body, create_excel, excel_loop, handler_data_map,
               asset_create_data_map, get_header_fields, header_fields_of, alook])⟩

/-- Claim C4: an execution with an empty recipient snapshot performs no
collection and no delivery (no file, archive or notification effects) and
is finalized as successful with the placeholder reason. -/
theorem C4_empty_recipients_success (env : Env) (ex : Execution) (hrec : ex.recipients = []) :
    (run_inner env ex).eff = {} ∧
    (run_inner env ex).is_frozen = false ∧
    (run_inner env ex).exec_success = true ∧
    (run_inner env ex).exec_reason = "-" ∧
    (run_inner env ex).save_attempted = true := by
  have hb : run_body env ex = ({}, Except.ok ()) := by
    simp [run_body, hrec]
  refine ⟨?_, ?_, ?_, ?_, ?_⟩ <;> simp [run_inner, hb] <;> decide

/-- Witness for C4 at a concrete empty-recipient execution. -/
theorem C4_witness :
    ex_w4.recipients = [] ∧
    ((run_inner env_triv ex_w4).eff = {} ∧
     (run_inner env_triv ex_w4).is_frozen = false ∧
     (run_inner env_triv ex_w4).exec_success = true ∧
     (run_inner env_triv ex_w4).exec_reason = "-" ∧
     (run_inner env_triv ex_w4).save_attempted = true) :=
  ⟨rfl, C4_empty_recipients_success env_triv ex_w4 rfl⟩

/-- Claim C8: a recipient whose secret key is empty still gets the
notification, with an empty attachment list, and the loop continues to the
next recipient without raising. -/
theorem C8_no_secret_empty_attachment (env : Env) (files : List String) (u : User)
    (rest : List User) (idx : Nat) (eff : Eff) (hsec : u.secret_key = "") :
    mail_loop env files (u :: rest) idx eff =
      mail_loop env files rest (idx + 1) { eff with mails := eff.mails ++ [(u.id, [])] } := by
  simp [mail_loop, hsec]

/-- Witness for C8: one recipient with an empty secret. -/
theorem C8_witness :
    (⟨1, "", "u"⟩ : User).secret_key = "" ∧
    mail_loop env_triv ["f.xlsx"] [⟨1, "", "u"⟩] 0 {} =
      mail_loop env_triv ["f.xlsx"] [] 1 { mails := [(1, [])] } :=
  ⟨rfl, C8_no_secret_empty_attachment env_triv ["f.xlsx"] ⟨1, "", "u"⟩ [] 0 {} rfl⟩

/-- Helper: the only exception that can escape the inner run is the one
raised by the save call inside the finally block. -/
theorem run_inner_raised (env : Env) (ex : Execution) :
    (run_inner env ex).raised = env.save_result := by
  unfold run_inner
  cases hb : run_body env ex with
  | mk eff r => cases r <;> rfl

/-- Claim C9: the outer run entry point never propagates an exception:
even when the inner run (including its finalize step) raises, the
exception is caught and logged at the outer boundary and run returns
normally, with nothing left pending. -/
theorem C9_outer_never_propagates (env : Env) (ex : Execution) (e : String)
    (hraise : (run_inner env ex).raised = some e) :
    (run env ex).outer_logged = some e ∧ (run env ex).result.raised = none := by
  simp [run, hraise]

/-- Witness for C9: an environment whose save raises. -/
theorem C9_witness :
    (run_inner env_w9 ex_w4).raised = some "database write failed" ∧
    ((run env_w9 ex_w4).outer_logged = some "database write failed" ∧
     (run env_w9 ex_w4).result.raised = none) :=
  ⟨(run_inner_raised env_w9 ex_w4).trans rfl,
   C9_outer_never_propagates env_w9 ex_w4 "database write failed"
     ((run_inner_raised env_w9 ex_w4).trans rfl)⟩

/-- Collection-only invariant: a successful create_excel pass only writes
spreadsheet files — the produced paths extend the file list one-for-one
with the xlsx-created log, and no mail, resolution, deletion or archive
effect occurs; if it produced nothing, the effects are untouched. -/
theorem excel_loop_spec (env : Env) :
    ∀ (ts : List String) (idx : Nat) (files : List String) (eff eff' : Eff)
      (files' : List String),
    excel_loop env ts idx files eff = (eff', Except.ok files') →
    ∃ new, files' = files ++ new ∧
      eff'.mails = eff.mails ∧ eff'.resolved = eff.resolved ∧
      eff'.deleted = eff.deleted ∧ eff'.zip_created = eff.zip_created ∧
      eff'.xlsx_created = eff.xlsx_created ++ new ∧
      (new = [] → eff' = eff) := by
  intro ts
  induction ts with
  | nil =>
    intro idx files eff eff' files' hh
    simp only [excel_loop] at hh
    obtain ⟨h1, h2⟩ := Prod.mk.injEq .. ▸ hh
    obtain rfl : files = files' := by
      cases h2
      rfl
    subst h1
    exact ⟨[], by simp⟩
  | cons t rest ih =>
    intro idx files eff eff' files' hh
    simp only [excel_loop] at hh
    cases hm : handler_data_map env t with
    | none =>
      simp only [hm] at hh
      exact ih idx files eff eff' files' hh
    | some r =>
      simp only [hm] at hh
      cases r with
      | error e => simp at hh
      | ok p =>
        obtain ⟨dm, c⟩ := p
        by_cases hdm : dm.isEmpty
        · simp only [hdm, if_true] at hh
          exact ih idx files eff eff' files' hh
        · simp only [hdm, if_false, Bool.false_eq_true] at hh
          obtain ⟨new, hnew, hm1, hr1, hd1, hz1, hx1, hemp⟩ := ih _ _ _ _ _ hh
          refine ⟨env.xlsx_name idx :: new, ?_, ?_, ?_, ?_, ?_, ?_, ?_⟩
          · rw [hnew]
            simp
          · simpa using hm1
          · simpa using hr1
          · simpa using hd1
          · simpa using hz1
          · rw [hx1]
            simp
          · intro hc
            cases hc

/-- Claim C10: when collection yields no files while the recipient
snapshot is non-empty, delivery returns before resolving any recipient, no
notification is sent, nothing is deleted, and the run is finalized as
successful with the placeholder reason. -/
theorem C10_no_files_short_circuit (env : Env) (ex : Execution) (eff0 : Eff)
    (hrec : ex.recipients ≠ [])
    (hx : create_excel env ex.types {} = (eff0, Except.ok [])) :
    (run_inner env ex).eff.mails = [] ∧
    (run_inner env ex).eff.resolved = false ∧
    (run_inner env ex).eff.deleted = [] ∧
    (run_inner env ex).eff.zip_created = [] ∧
    (run_inner env ex).exec_success = true ∧
    (run_inner env ex).exec_reason = "-" := by
  have h0 : eff0 = {} := by
    obtain ⟨new, hnew, _, _, _, _, _, hemp⟩ :=
      excel_loop_spec env ex.types 0 [] {} eff0 [] hx
    have hn : new = [] := by
      cases new with
      | nil => rfl
      | cons a l => simp at hnew
    exact hemp hn
  subst h0
  have hrecb : ex.recipients.isEmpty = false := by
    cases hr : ex.recipients with
    | nil => exact absurd hr hrec
    | cons a l => rfl
  have hb : run_body env ex = ({}, Except.ok ()) := by
    simp only [run_body, hrecb, Bool.false_eq_true, if_false, hx]
    simp [send_backup_mail]
  refine ⟨?_, ?_, ?_, ?_, ?_, ?_⟩ <;> simp [run_inner, hb] <;> decide

/-- Witness for C10: an asset-only execution with no accounts and one
recipient. -/
theorem C10_witness :
    (ex_w10.recipients ≠ [] ∧
     create_excel env_triv ex_w10.types {} = ({}, Except.ok [])) ∧
    ((run_inner env_triv ex_w10).eff.mails = [] ∧
     (run_inner env_triv ex_w10).eff.resolved = false ∧
     (run_inner env_triv ex_w10).eff.deleted = [] ∧
     (run_inner env_triv ex_w10).eff.zip_created = [] ∧
     (run_inner env_triv ex_w10).exec_success = true ∧
     (run_inner env_triv ex_w10).exec_reason = "-") :=
  ⟨⟨by simp [ex_w10],
    by simp [env_triv, ex_w10, create_excel, excel_loop, handler_data_map,
             asset_create_data_map]⟩,
   C10_no_files_short_circuit env_triv ex_w10 {} (by simp [ex_w10])
     (by simp [env_triv, ex_w10, create_excel, excel_loop, handler_data_map,
               asset_create_data_map])⟩

/-! Header-derivation counting (claim C6). -/

theorem asset_loop_count (schema : Schema) (sn : String) (hf : List (String × String)) :
    ∀ (accounts : List AssetAcct) (dm : DataMap) (cnt : Nat) (dm' : DataMap) (cnt' : Nat),
    asset_loop schema sn hf accounts dm cnt = Except.ok (dm', cnt') →
    cnt' = cnt + (if hf.isEmpty then accounts.length else 0) := by
  intro accounts
  induction accounts with
  | nil =>
    intro dm cnt dm' cnt' hh
    simp only [asset_loop] at hh
    have h2 : cnt = cnt' := by
      have := congrArg (fun r => match r with
        | Except.ok (p : DataMap × Nat) => p.2
        | Except.error _ => 0) hh
      simpa using this
    subst h2
    by_cases he : hf.isEmpty <;> simp [he]
  | cons a rest ih =>
    intro dm cnt dm' cnt' hh
    simp only [asset_loop] at hh
    cases hc : create_row schema a.data hf with
    | error e => simp [hc] at hh
    | ok row =>
      simp only [hc] at hh
      have := ih _ _ _ _ hh
      by_cases he : hf.isEmpty <;> simp [he] at this ⊢ <;> omega

theorem app_loop_count (schema : Schema) (get_label : String → String) :
    ∀ (accounts : List AppAcct) (dm : DataMap) (cnt : Nat) (dm' : DataMap) (cnt' : Nat),
    app_loop schema get_label accounts dm cnt = Except.ok (dm', cnt') →
    cnt' = cnt + accounts.length := by
  intro accounts
  induction accounts with
  | nil =>
    intro dm cnt dm' cnt' hh
    simp only [app_loop] at hh
    have h2 : cnt = cnt' := by
      have := congrArg (fun r => match r with
        | Except.ok (p : DataMap × Nat) => p.2
        | Except.error _ => 0) hh
      simpa using this
    subst h2
    simp
  | cons a rest ih =>
    intro dm cnt dm' cnt' hh
    simp only [app_loop] at hh
    cases hc : create_row schema a.data [] with
    | error e => simp [hc] at hh
    | ok row =>
      simp only [hc] at hh
      have := ih _ _ _ _ hh
      simp at this ⊢
      omega

/-- Claim C6 (amended): within one collector run the Asset Collector
derives the header mapping exactly once (before its loop, reusing it for
every record, provided the derived mapping is non-empty), while the
Application Collector re-derives the header mapping once per record — it
is the header row, not the mapping, that is emitted once per sub-type on
first encounter. -/
theorem C6_amended_header_derivations
    (aschema : Schema) (sn : String) (aaccounts : List AssetAcct)
    (hf : List (String × String)) (dmA : DataMap) (cntA : Nat)
    (pschema : Schema) (get_label : String → String) (paccounts : List AppAcct)
    (dmP : DataMap) (cntP : Nat)
    (hhf : get_header_fields aschema = Except.ok hf) (hne : hf ≠ [])
    (haccs : aaccounts ≠ [])
    (hA : asset_create_data_map aschema sn aaccounts = Except.ok (dmA, cntA))
    (hP : app_create_data_map pschema get_label paccounts = Except.ok (dmP, cntP)) :
    cntA = 1 ∧ cntP = paccounts.length := by
  constructor
  · cases aaccounts with
    | nil => exact absurd rfl haccs
    | cons a rest =>
      simp only [asset_create_data_map, hhf] at hA
      have hcount := asset_loop_count aschema sn hf (a :: rest) [] 1 dmA cntA hA
      have hemp : hf.isEmpty = false := by
        cases hf with
        | nil => exact absurd rfl hne
        | cons x l => rfl
      rw [hemp] at hcount
      simpa using hcount
  · simp only [app_create_data_map] at hP
    simpa using app_loop_count pschema get_label paccounts [] 0 dmP cntP hP

/-- Counterexample to C6 as stated: two application accounts of the same
sub-type make the Application Collector perform two header derivations,
although there is exactly one sub-type (the claim would require one
derivation, on first encounter). -/
theorem C6_counterexample :
    app_create_data_map app_schema_w (fun s => s) [app_acct_w1, app_acct_w2]
      = Except.ok ([("mysql", [["Name"], ["a"], ["b"]])], 2) ∧
    (first_occurrences ([app_acct_w1, app_acct_w2].map (fun a => a.type))).length = 1 ∧
    (2 : Nat) ≠ 1 := by
  refine ⟨?_, by simp [first_occurrences, app_acct_w1, app_acct_w2], by decide⟩
  simp [app_create_data_map, app_loop, create_row, get_header_fields, header_fields_of,
        row_loop, unpack_data, updInsert, dm_append, alook, app_schema_w, app_acct_w1,
        app_acct_w2]

/-- Witness for the amended C6 on concrete collectors. -/
theorem C6_witness :
    (get_header_fields asset_schema_w = Except.ok [("name", "Name")] ∧
     ([("name", "Name")] : List (String × String)) ≠ [] ∧
     ([asset_acct_w] : List AssetAcct) ≠ [] ∧
     asset_create_data_map asset_schema_w "Asset" [asset_acct_w]
       = Except.ok ([("Asset", [["Name"], ["v"]])], 1) ∧
     app_create_data_map app_schema_w (fun s => s) [app_acct_w1, app_acct_w2]
       = Except.ok ([("mysql", [["Name"], ["a"], ["b"]])], 2)) ∧
    (1 = 1 ∧ 2 = [app_acct_w1, app_acct_w2].length) :=
  ⟨⟨by simp [get_header_fields, header_fields_of, asset_schema_w, alook, updInsert],
    by simp, by simp,
    by simp [asset_create_data_map, asset_loop, get_header_fields, header_fields_of,
             create_row, row_loop, unpack_data, updInsert, dm_append, alook,
             asset_schema_w, asset_acct_w],
    by simp [app_create_data_map, app_loop, create_row, get_header_fields,
             header_fields_of, row_loop, unpack_data, updInsert, dm_append, alook,
             app_schema_w, app_acct_w1, app_acct_w2]⟩,
   C6_amended_header_derivations asset_schema_w "Asset" [asset_acct_w]
     [("name", "Name")] [("Asset", [["Name"], ["v"]])] 1
     app_schema_w (fun s => s) [app_acct_w1, app_acct_w2]
     [("mysql", [["Name"], ["a"], ["b"]])] 2
     (by simp [get_header_fields, header_fields_of, asset_schema_w, alook, updInsert])
     (by simp) (by simp)
     (by simp [asset_create_data_map, asset_loop, get_header_fields, header_fields_of,
               create_row, row_loop, unpack_data, updInsert, dm_append, alook,
               asset_schema_w, asset_acct_w])
     (by simp [app_create_data_map, app_loop, create_row, get_header_fields,
               header_fields_of, row_loop, unpack_data, updInsert, dm_append, alook,
               app_schema_w, app_acct_w1, app_acct_w2])⟩

/-! Sheet-map lemmas and the Application Collector's shape (claim C7). -/

theorem dm_append_alook_self (dm : DataMap) (k : String) (row : List String) :
    alook (dm_append dm k row) k =
      some ((match alook dm k with | some r => r | none => []) ++ [row]) := by
  unfold dm_append
  by_cases hin : (alook dm k).isSome
  · rw [if_pos hin, alook_map_append_row]
    cases hl : alook dm k with
    | none => rw [hl] at hin; simp at hin
    | some r => simp [hl]
  · rw [if_neg hin, alook_append_single]
    cases hl : alook dm k with
    | none => simp
    | some r => rw [hl] at hin; simp at hin

theorem dm_append_alook_other (dm : DataMap) (k : String) (row : List String)
    (s : String) (hs : s ≠ k) :
    alook (dm_append dm k row) s = alook dm s := by
  unfold dm_append
  by_cases hin : (alook dm k).isSome
  · rw [if_pos hin, alook_map_append_row, if_neg hs]
  · rw [if_neg hin, alook_append_single]
    cases hl : alook dm s with
    | none => simp [hs]
    | some r => simp

theorem keys_map_append_row (dm : DataMap) (k : String) (row : List String) :
    ((dm.map fun p => if p.1 = k then (p.1, p.2 ++ [row]) else p).map Prod.fst) =
      dm.map Prod.fst := by
  induction dm with
  | nil => rfl
  | cons p rest ih =>
    obtain ⟨k0, v0⟩ := p
    by_cases hk : k0 = k
    · simp [hk, ih]
    · simp [hk, ih]

theorem dm_append_keys (dm : DataMap) (k : String) (row : List String) :
    (dm_append dm k row).map Prod.fst =
      if (alook dm k).isSome then dm.map Prod.fst else dm.map Prod.fst ++ [k] := by
  unfold dm_append
  by_cases hin : (alook dm k).isSome
  · rw [if_pos hin, if_pos hin, keys_map_append_row]
  · rw [if_neg hin, if_neg hin]
    simp

theorem app_loop_inv (schema : Schema) (get_label : String → String) :
    ∀ (accounts : List AppAcct) (dm : DataMap) (cnt : Nat) (dm' : DataMap) (cnt' : Nat),
    app_loop schema get_label accounts dm cnt = Except.ok (dm', cnt') →
    (dm'.map Prod.fst =
       (accounts.map (fun a => get_label a.type)).foldl
         (fun ks k => if k ∈ ks then ks else ks ++ [k]) (dm.map Prod.fst)) ∧
    (∀ s rows, alook dm' s = some rows →
       rows.length = (match alook dm s with
                      | some r => r.length
                      | none => 1) +
         (accounts.filter (fun a => get_label a.type = s)).length) ∧
    (∀ s, alook dm' s = none → alook dm s = none) := by
  intro accounts
  induction accounts with
  | nil =>
    intro dm cnt dm' cnt' hh
    simp only [app_loop] at hh
    have hdm : dm = dm' := by
      have := congrArg (fun r => match r with
        | Except.ok (p : DataMap × Nat) => p.1
        | Except.error _ => []) hh
      simpa using this
    subst hdm
    refine ⟨by simp, ?_, by simp⟩
    intro s rows hl
    simp [hl]
  | cons a rest ih =>
    intro dm cnt dm' cnt' hh
    simp only [app_loop] at hh
    cases hc : create_row schema a.data [] with
    | error e => simp [hc] at hh
    | ok row =>
      simp only [hc] at hh
      by_cases hpres : (alook dm (get_label a.type)).isSome
      · simp only [hpres, if_true] at hh
        obtain ⟨ihK, ihR, ihN⟩ := ih _ _ _ _ hh
        obtain ⟨r0, hr0⟩ := Option.isSome_iff_exists.mp hpres
        have hmem : get_label a.type ∈ dm.map Prod.fst :=
          (alook_isSome_iff_mem_keys dm (get_label a.type)).mp hpres
        refine ⟨?_, ?_, ?_⟩
        · rw [ihK, dm_append_keys]
          simp [hpres, hmem]
        · intro s rows hl
          have hlen := ihR s rows hl
          by_cases hs : s = get_label a.type
          · subst hs
            rw [dm_append_alook_self, hr0] at hlen
            simp at hlen
            rw [hr0, hlen]
            simp only [List.filter_cons, decide_eq_true_eq, eq_self_iff_true, if_true,
                       List.length_cons]
            ring
          · rw [dm_append_alook_other dm _ _ s hs] at hlen
            rw [hlen]
            have hne2 : ¬ (get_label a.type = s) := fun hc => hs hc.symm
            simp [List.filter_cons, hne2]
        · intro s hnone
          have h2 := ihN s hnone
          by_cases hs : s = get_label a.type
          · subst hs
            rw [dm_append_alook_self] at h2
            simp at h2
          · rw [dm_append_alook_other dm _ _ s hs] at h2
            exact h2
      · simp only [hpres, Bool.false_eq_true, if_false] at hh
        obtain ⟨ihK, ihR, ihN⟩ := ih _ _ _ _ hh
        have hnone0 : alook dm (get_label a.type) = none := by
          cases hl : alook dm (get_label a.type) with
          | none => rfl
          | some r => rw [hl] at hpres; simp at hpres
        have hmem : ¬ get_label a.type ∈ dm.map Prod.fst := by
          intro hc
          exact hpres ((alook_isSome_iff_mem_keys dm (get_label a.type)).mpr hc)
        refine ⟨?_, ?_, ?_⟩
        · rw [ihK, dm_append_keys, dm_append_alook_self, dm_append_keys]
          simp [hnone0, hmem]
        · intro s rows hl
          have hlen := ihR s rows hl
          by_cases hs : s = get_label a.type
          · subst hs
            rw [dm_append_alook_self, dm_append_alook_self, hnone0] at hlen
            simp only [List.length_append, List.length_cons, List.length_nil] at hlen
            rw [hnone0, hlen]
            simp only [List.filter_cons, decide_eq_true_eq, eq_self_iff_true, if_true,
                       List.length_cons]
            ring
          · rw [dm_append_alook_other _ _ _ s hs,
                dm_append_alook_other _ _ _ s hs] at hlen
            rw [hlen]
            have hne2 : ¬ (get_label a.type = s) := fun hc => hs hc.symm
            simp [List.filter_cons, hne2]
        · intro s hnone
          have h2 := ihN s hnone
          by_cases hs : s = get_label a.type
          · subst hs
            rw [dm_append_alook_self] at h2
            simp at h2
          · rw [dm_append_alook_other _ _ _ s hs,
                dm_append_alook_other _ _ _ s hs] at h2
            exact h2

/-- Claim C7: for N application accounts over K distinct sub-types, the
Application Collector's data map has exactly one sheet per distinct
sub-type (in first-encounter order, hence exactly K sheets), every sheet
holds one header row plus one data row per account of that sub-type, and
zero accounts yield no sheets. -/
theorem C7_app_collector_shape (schema : Schema) (get_label : String → String)
    (accounts : List AppAcct) (dm : DataMap) (cnt : Nat)
    (hok : app_create_data_map schema get_label accounts = Except.ok (dm, cnt)) :
    dm.map Prod.fst = first_occurrences (accounts.map (fun a => get_label a.type)) ∧
    dm.length = (first_occurrences (accounts.map (fun a => get_label a.type))).length ∧
    (∀ s rows, alook dm s = some rows →
       rows.length = 1 + (accounts.filter (fun a => get_label a.type = s)).length) ∧
    (accounts = [] → dm = []) := by
  simp only [app_create_data_map] at hok
  obtain ⟨hK, hR, _⟩ := app_loop_inv schema get_label accounts [] 0 dm cnt hok
  have hkeys : dm.map Prod.fst = first_occurrences (accounts.map (fun a => get_label a.type)) := by
    rw [hK]
    rfl
  refine ⟨hkeys, ?_, ?_, ?_⟩
  · rw [← hkeys]
    simp
  · intro s rows hl
    have := hR s rows hl
    simpa [alook] using this
  · intro hacc
    subst hacc
    simp only [app_loop] at hok
    have := congrArg (fun r => match r with
      | Except.ok (p : DataMap × Nat) => p.1
      | Except.error _ => ([("x", [])] : DataMap)) hok
    simpa using this.symm

/-- Witness for C7: three accounts over two sub-types give two sheets with
three and two rows. -/
theorem C7_witness :
    app_create_data_map app_schema_w (fun s => s) [app_acct_w1, app_acct_w2, app_acct_w3]
      = Except.ok ([("mysql", [["Name"], ["a"], ["b"]]), ("redis", [["Name"], ["c"]])], 3) ∧
    (([("mysql", [["Name"], ["a"], ["b"]]), ("redis", [["Name"], ["c"]])] : DataMap).map Prod.fst
       = first_occurrences ([app_acct_w1, app_acct_w2, app_acct_w3].map (fun a => a.type)) ∧
     ([("mysql", [["Name"], ["a"], ["b"]]), ("redis", [["Name"], ["c"]])] : DataMap).length
       = (first_occurrences ([app_acct_w1, app_acct_w2, app_acct_w3].map (fun a => a.type))).length ∧
     (∀ s rows,
        alook ([("mysql", [["Name"], ["a"], ["b"]]), ("redis", [["Name"], ["c"]])] : DataMap) s
          = some rows →
        rows.length = 1 +
          ([app_acct_w1, app_acct_w2, app_acct_w3].filter (fun a => a.type = s)).length) ∧
     (([app_acct_w1, app_acct_w2, app_acct_w3] : List AppAcct) = [] →
        ([("mysql", [["Name"], ["a"], ["b"]]), ("redis", [["Name"], ["c"]])] : DataMap) = [])) := by
  have hok : app_create_data_map app_schema_w (fun s => s)
      [app_acct_w1, app_acct_w2, app_acct_w3]
      = Except.ok ([("mysql", [["Name"], ["a"], ["b"]]), ("redis", [["Name"], ["c"]])], 3) := by
    simp [app_create_data_map, app_loop, create_row, get_header_fields, header_fields_of,
          row_loop, unpack_data, updInsert, dm_append, alook, app_schema_w, app_acct_w1,
          app_acct_w2, app_acct_w3]
  exact ⟨hok, C7_app_collector_shape app_schema_w (fun s => s)
    [app_acct_w1, app_acct_w2, app_acct_w3]
    [("mysql", [["Name"], ["a"], ["b"]]), ("redis", [["Name"], ["c"]])] 3 hok⟩

/-! File cleanup behaviour (claim C2). -/

theorem mem_add_file (disk : List String) (f x : String) :
    x ∈ add_file disk f ↔ x ∈ disk ∨ x = f := by
  unfold add_file
  by_cases hf : f ∈ disk
  · rw [if_pos hf]
    constructor
    · exact Or.inl
    · rintro (hx | rfl)
      · exact hx
      · exact hf
  · rw [if_neg hf]
    simp

theorem mail_loop_spec (env : Env) (files : List String) :
    ∀ (users : List User) (idx : Nat) (eff eff' : Eff) (r : Except String Unit),
    mail_loop env files users idx eff = (eff', r) →
    eff'.deleted = eff.deleted ∧ eff'.xlsx_created = eff.xlsx_created ∧
    eff'.resolved = eff.resolved ∧
    (r = Except.ok () → eff'.mails.length = eff.mails.length + users.length) ∧
    ((∀ z ∈ eff.zip_created, z ∈ eff.disk) → ∀ z ∈ eff'.zip_created, z ∈ eff'.disk) := by
  intro users
  induction users with
  | nil =>
    intro idx eff eff' r hh
    simp only [mail_loop] at hh
    injection hh with h1 h2
    subst h1
    subst h2
    exact ⟨rfl, rfl, rfl, fun _ => by simp, fun hinv => hinv⟩
  | cons u rest ih =>
    intro idx eff eff' r hh
    simp only [mail_loop] at hh
    by_cases hsec : u.secret_key = ""
    · rw [if_pos hsec] at hh
      obtain ⟨hd, hx, hr, hm, hz⟩ := ih _ _ _ _ hh
      refine ⟨by simpa using hd, by simpa using hx, by simpa using hr, ?_, ?_⟩
      · intro hok
        have hlen := hm hok
        simp at hlen
        rw [hlen]
        simp
        ring
      · intro hinv z hz2
        refine hz ?_ z hz2
        intro w hw
        simpa using hinv w (by simpa using hw)
    · rw [if_neg hsec] at hh
      cases henc : env.encrypt (env.zip_name idx) u.secret_key files with
      | error e =>
        simp only [henc] at hh
        injection hh with h1 h2
        subst h1
        subst h2
        refine ⟨rfl, rfl, rfl, ?_, fun hinv => hinv⟩
        intro hok
        simp at hok
      | ok uv =>
        simp only [henc] at hh
        obtain ⟨hd, hx, hr, hm, hz⟩ := ih _ _ _ _ hh
        refine ⟨by simpa using hd, by simpa using hx, by simpa using hr, ?_, ?_⟩
        · intro hok
          have hlen := hm hok
          simp at hlen
          rw [hlen]
          simp
          ring
        · intro hinv z hz2
          refine hz ?_ z hz2
          intro w hw
          simp only at hw ⊢
          rcases List.mem_append.mp hw with hold | hnew2
          · exact (mem_add_file _ _ _).mpr (Or.inl (hinv w hold))
          · have : w = env.zip_name idx := by simpa using hnew2
            exact (mem_add_file _ _ _).mpr (Or.inr this)

theorem delete_files_spec :
    ∀ (files : List String) (eff : Eff),
    (delete_files files eff).deleted = eff.deleted ++ files ∧
    (delete_files files eff).xlsx_created = eff.xlsx_created ∧
    (delete_files files eff).zip_created = eff.zip_created ∧
    (delete_files files eff).mails = eff.mails ∧
    (delete_files files eff).resolved = eff.resolved ∧
    (∀ z, z ∈ eff.disk → ¬ z ∈ files → z ∈ (delete_files files eff).disk) := by
  intro files
  induction files with
  | nil =>
    intro eff
    refine ⟨by simp [delete_files], rfl, rfl, rfl, rfl, fun z hz _ => hz⟩
  | cons f rest ih =>
    intro eff
    have hstep : delete_files (f :: rest) eff =
        delete_files rest { eff with disk := eff.disk.erase f,
                                     deleted := eff.deleted ++ [f] } := rfl
    rw [hstep]
    obtain ⟨hd, hx, hz, hm, hr, hdisk⟩ :=
      ih { eff with disk := eff.disk.erase f, deleted := eff.deleted ++ [f] }
    refine ⟨?_, by simpa using hx, by simpa using hz, by simpa using hm,
            by simpa using hr, ?_⟩
    · rw [hd]
      simp
    · intro z hzin hznotin
      have hne : z ≠ f := fun hc => hznotin (hc ▸ List.mem_cons_self f rest)
      refine hdisk z ?_ (fun hc => hznotin (List.mem_cons_of_mem f hc))
      simpa using (List.mem_erase_of_ne hne).mpr hzin

/-- Claim C2 (amended): on a run whose protected body completes without an
exception, exactly the spreadsheet files created by collection are deleted
(the per-recipient archive bundles never are), any deletion happens only
after the full recipient loop has finished (every resolved recipient was
already mailed first), and every archive whose name differs from all
spreadsheet names is still on disk when the run completes. -/
theorem C2_amended_cleanup (env : Env) (ex : Execution) (eff : Eff)
    (h : run_body env ex = (eff, Except.ok ())) :
    eff.deleted = eff.xlsx_created ∧
    (eff.deleted ≠ [] → eff.mails.length = (env.resolve_users ex.recipients).length) ∧
    (∀ z ∈ eff.zip_created, ¬ z ∈ eff.xlsx_created → z ∈ eff.disk) := by
  by_cases hrec : ex.recipients.isEmpty
  · have hrb : run_body env ex = (({} : Eff), Except.ok ()) := by
      unfold run_body
      rw [if_pos hrec]
    rw [hrb] at h
    injection h with h1 h2
    subst h1
    refine ⟨rfl, by simp, by simp⟩
  · cases hce : create_excel env ex.types {} with
    | mk eff0 res0 =>
      cases res0 with
      | error e =>
        have hbad : run_body env ex = (eff0, Except.error e) := by
          unfold run_body
          rw [if_neg hrec, hce]
        rw [hbad] at h
        simp at h
      | ok files =>
        have hsend : send_backup_mail env files ex.recipients eff0 = (eff, Except.ok ()) := by
          rw [← h]
          unfold run_body
          rw [if_neg hrec, hce]
        have hce2 : excel_loop env ex.types 0 [] {} = (eff0, Except.ok files) := by
          simpa [create_excel] using hce
        obtain ⟨new, hnew, hm0, hr0, hd0, hz0, hx0, hemp⟩ :=
          excel_loop_spec env ex.types 0 [] {} eff0 files hce2
        unfold send_backup_mail at hsend
        by_cases hf : files.isEmpty
        · rw [if_pos hf] at hsend
          injection hsend with h1 h2
          subst h1
          have hfe : files = [] := by
            cases files with
            | nil => rfl
            | cons a l => simp at hf
          have hne : new = [] := by
            rw [hfe] at hnew
            simpa using hnew.symm
          have he0 : eff0 = ({} : Eff) := hemp hne
          subst he0
          refine ⟨rfl, by simp, by simp⟩
        · rw [if_neg hf] at hsend
          simp only [] at hsend
          cases hml : mail_loop env files (env.resolve_users ex.recipients) 0
              { eff0 with resolved := true } with
          | mk eff2 r2 =>
            rw [hml] at hsend
            cases r2 with
            | error e => simp at hsend
            | ok uv =>
              injection hsend with h1 h2
              subst h1
              obtain ⟨hd2, hx2, hr2, hmok, hzinv⟩ :=
                mail_loop_spec env files (env.resolve_users ex.recipients) 0
                  { eff0 with resolved := true } eff2 (Except.ok uv) hml
              obtain ⟨hdd, hdx, hdz, hdm, hdr, hddisk⟩ := delete_files_spec files eff2
              have hd2e : eff2.deleted = [] := by
                rw [hd2]
                simpa using hd0
              have hx2e : eff2.xlsx_created = files := by
                rw [hx2]
                simp only
                rw [hx0, hnew]
              refine ⟨?_, ?_, ?_⟩
              · rw [hdd, hdx, hd2e, hx2e]
                simp
              · intro _
                rw [hdm]
                have hml2 := hmok (by cases uv; rfl)
                rw [hml2]
                simp only
                rw [hm0]
                simp
              · intro z hz2 hznot
                have hz2e : z ∈ eff2.zip_created := by
                  rw [hdz] at hz2
                  exact hz2
                have hzdisk : z ∈ eff2.disk := by
                  refine hzinv ?_ z hz2e
                  intro w hw
                  simp only at hw
                  rw [hz0] at hw
                  simp at hw
                have hznotf : ¬ z ∈ files := by
                  rw [hdx, hx2e] at hznot
                  exact hznot
                exact hddisk z hzdisk hznotf

/-- Counterexample to C2 as stated: on a happy-path run the per-recipient
encrypted archive bundle is written to the temporary directory but never
deleted — it is still on disk when the run completes, so not every file
written by the run is removed before completion. -/
theorem C2_counterexample :
    (run env_c2 ex_c2).result.eff.zip_created = ["bundle.zip"] ∧
    ¬ "bundle.zip" ∈ (run env_c2 ex_c2).result.eff.deleted ∧
    "bundle.zip" ∈ (run env_c2 ex_c2).result.eff.disk := by
  have hrun : run_body env_c2 ex_c2 = (eff_c2, Except.ok ()) := by
    simp [env_c2, env_triv, ex_c2, eff_c2, run_body, create_excel, excel_loop,
          handler_data_map, asset_create_data_map, asset_loop, get_header_fields,
          header_fields_of, create_row, row_loop, unpack_data, updInsert, dm_append,
          alook, send_backup_mail, mail_loop, delete_files, add_file, List.erase]
  have hsave : env_c2.save_result = none := rfl
  simp [run, run_inner, hrun, hsave, eff_c2]

/-- Witness for the amended C2 on the same happy-path run. -/
theorem C2_witness :
    run_body env_c2 ex_c2 = (eff_c2, Except.ok ()) ∧
    (eff_c2.deleted = eff_c2.xlsx_created ∧
     (eff_c2.deleted ≠ [] →
        eff_c2.mails.length = (env_c2.resolve_users ex_c2.recipients).length) ∧
     (∀ z ∈ eff_c2.zip_created, ¬ z ∈ eff_c2.xlsx_created → z ∈ eff_c2.disk)) :=
  ⟨by simp [env_c2, env_triv, ex_c2, eff_c2, run_body, create_excel, excel_loop,
            handler_data_map, asset_create_data_map, asset_loop, get_header_fields,
            header_fields_of, create_row, row_loop, unpack_data, updInsert, dm_append,
            alook, send_backup_mail, mail_loop, delete_files, add_file, List.erase],
   C2_amended_cleanup env_c2 ex_c2 eff_c2
     (by simp [env_c2, env_triv, ex_c2, eff_c2, run_body, create_excel, excel_loop,
               handler_data_map, asset_create_data_map, asset_loop, get_header_fields,
               header_fields_of, create_row, row_loop, unpack_data, updInsert, dm_append,
               alook, send_backup_mail, mail_loop, delete_files, add_file, List.erase])⟩

end AccountBackup
